import Mathlib

/-!
A verification development for the picomatch core
(`src/node_modules/picomatch/lib/picomatch.js`): the glob-to-matcher
compilation pipeline, the match executor, matcher composition (arrays,
ignore filters) and the path-algebra helpers.

The JavaScript source is shallowly embedded:

* JS dynamic values that matter to the visible code are modelled by small
  sum types (`PatArg` for the pattern argument, `InputArg` for the input
  argument, `MatchVal` / `MRet` for the polymorphic results).
* JS exceptions are modelled by `Except JsError`.
* The external collaborators that are not part of the visible source
  (the Scanner `scan`, the Syntax Compiler `parse`, `parse.fastpaths`,
  `utils.isWindows`, `process.cwd` and the validity judgment of the host
  `RegExp` constructor) are abstracted into an environment record `Env`.
  A compiled fragment is carried together with its full-string language
  (`Frag`), which is how the meaning of the host regular expression is
  threaded through the pipeline; the shapes that the visible code itself
  assembles around a fragment (anchoring, negation, the optional trailing
  slash) are given executable semantics in `assembledExec`, and that
  semantics is validated against a small positional model of JavaScript
  regular-expression matching (`SpansF` below).
* JS strings are handled through their character lists.
-/

/-- Errors thrown by the library: `TypeError(msg)` for invalid arguments,
and the host `RegExp` constructor failure that `toRegex` re-throws in
debug mode. -/
inductive JsError where
  | typeError (msg : String)
  | regexCtor
deriving DecidableEq

/-- The `pattern` argument of the factory / assembler: a string, an array
(whose elements are again pattern arguments, as the factory recurses), or
any other JS value (`other`). -/
inductive PatArg where
  | str (s : String)
  | arr (l : List PatArg)
  | other

/-- The input argument of the executor: a string or any other JS value. -/
inductive InputArg where
  | str (s : String)
  | other
deriving DecidableEq

/-- The JS value stored in the `match` field of a result record: absent
(`undef`, the early empty-input return), a boolean, or the truthiness of a
`regex.exec` result (the array contents are never inspected by the visible
code, so only the truthiness is kept). -/
inductive MatchVal where
  | undef
  | bool (b : Bool)
  | execRes (b : Bool)
deriving DecidableEq

/-- `str.replace(/\\/g, '/')` (the `toPosixSlashes` helper, line 7). -/
def toPosixSlashes (s : String) : String :=
  String.mk (s.data.map (fun c => if c = '\\' then '/' else c))

/-- `input[0] === c` for a JS string (out-of-range indexing is `undefined`,
which compares unequal to every character). -/
def headIs (s : String) (c : Char) : Bool :=
  s.data.head? = some c

/-- `input.startsWith('./') ? input.slice(2) : input` (line 258). -/
def stripLeadDotSlash (s : String) : String :=
  if s.data.take 2 = ['.', '/'] then String.mk (s.data.drop 2) else s

/-- The character class of `/[-![$*+?^{}(|)\\\]]/` (line 268): the glob
metacharacters whose absence sends a pattern down the literal fast path. -/
def isGlobSpecial (c : Char) : Bool :=
  c = '-' || c = '!' || c = '[' || c = '$' || c = '*' || c = '+' ||
  c = '?' || c = '^' || c = '{' || c = '}' || c = '(' || c = '|' ||
  c = ')' || c = '\\' || c = ']'

/-- `/[-![$*+?^{}(|)\\\]]/.test(input)`. -/
def hasSpecialChars (s : String) : Bool :=
  s.data.any isGlobSpecial

/-- `input.replace(/([./])/g, '\\$1')` (line 269): escape only `.` and `/`. -/
def escapeLit (s : String) : String :=
  String.mk (s.data.foldr (fun c acc => if c = '.' || c = '/' then '\\' :: c :: acc else c :: acc) [])

/-- The four JavaScript line terminators, which `.` does not match. -/
def isLT (c : Char) : Bool :=
  c = '\n' || c = '\r' || c.toNat = 0x2028 || c.toNat = 0x2029

/-- A string free of line terminators (the strings `.*` can span). -/
def noLT (s : String) : Bool :=
  s.data.all (fun c => !(isLT c))

/-- A compiled regex-source fragment together with its semantics: `sem t`
is whether the host regex `^(?:src)$` matches `t` (the full-string
language of the fragment).  Fragments produced by the opaque Syntax
Compiler are values of this type supplied by the environment. -/
structure Frag where
  src : String
  sem : String → Bool

/-- The substring closure of a full-string language: the language of the
fragment used without anchors (`options.contains`). -/
def subClosure (sem : String → Bool) (s : String) : Bool :=
  (s.data.tails.flatMap List.inits).any (fun l => sem (String.mk l))

/-- The starts-at-position-zero closure of a full-string language: the
language of the fragment inside an anchored lookahead when the wrapped
source itself carries no anchors (`contains` mode under negation). -/
def initClosure (sem : String → Bool) (s : String) : Bool :=
  s.data.inits.any (fun l => sem (String.mk l))

/-- `output += '\\/?'` (line 264): the optional-trailing-slash fragment.
The semantics of `X\/?` under full anchoring: the input as a whole, or the
input less one trailing slash, is in the language of `X`. -/
def optSlash (f : Frag) : Frag where
  src := f.src ++ "\\/?"
  sem := fun s =>
    f.sem s || (s.data.getLast? = some '/' && f.sem (String.mk s.data.dropLast))

/-- The literal fragment of the no-metacharacter fast path (line 269):
source escapes only `.` and `/`; its anchored language is the singleton of
the pattern itself (validated against the positional regex model below in
`exec_anchored_lits_iff`). -/
def litFrag (s : String) : Frag where
  src := escapeLit s
  sem := fun t => t = s

/-- Result of the opaque Syntax Compiler `parse(input, options)`: the
output fragment plus the `negated` and `fastpaths` flags the visible code
reads (the real state object has more fields; only these are consumed). -/
structure PState where
  output : Frag
  negated : Bool
  fastpaths : Bool

/-- The compiler state `makeRe` attaches to a returned regex when
`returnState` is requested.  In the fast-path and literal branches it is
the initial `{ negated: false, fastpaths: true }` object, which has no
output; in the parse branch it is the parser state. -/
structure AttachedState where
  negated : Bool
  fastpaths : Bool
  output : Option Frag

/-- Scanner result consumed by `split` (only `base` and `glob` are read). -/
structure ScanSt where
  base : String
  glob : String

/-- Options recognized by the visible code.  A JS `undefined` options
argument is modelled by the default record: the visible code immediately
defaults it (`options || {}`), and the only place that distinguishes the
two (`split`) takes an `Option Options`.  Callbacks are modelled as
presence flags: the code invokes them purely for side effects and never
lets their results influence control flow. -/
structure Options where
  ignore : Option PatArg := none
  onMatch : Option Unit := none
  onIgnore : Option Unit := none
  onResult : Option Unit := none
  format : Option (String → String) := none
  capture : Bool := false
  matchBase : Bool := false
  basename : Bool := false
  nocase : Bool := false
  flags : Option String := none
  contains : Bool := false
  strictSlashes : Bool := false
  fastpaths : Bool := true
  debug : Bool := false
  cwd : Option String := none

/-- `opts.flags || (opts.nocase ? 'i' : '')` (line 297), with JS
falsiness of the empty string. -/
def flagsOf (opts : Options) : String :=
  match opts.flags with
  | some f => if f = "" then (if opts.nocase then "i" else "") else f
  | none => if opts.nocase then "i" else ""

/-- The environment of external collaborators: the opaque Syntax Compiler
(`parseFn`), its fast-path table (`fastpathsFn`, `undefined` modelled as
`none`), the Scanner (`scanFn`, receiving the raw possibly-`undefined`
options), `utils.isWindows`, `process.cwd()`, and the host judgment of
whether a regex source compiles (`regexOk`). -/
structure Env where
  parseFn : String → Options → PState
  fastpathsFn : String → Options → Option Frag
  scanFn : String → Option Options → ScanSt
  isWindows : Options → Bool
  cwd : String
  regexOk : String → String → Bool

/-- A compiled regular expression: source, flags, the truthiness of
`exec` on a given input, and the optional attached compiler state
(`regex.state`, line 288). -/
structure CompiledRegex where
  source : String
  flags : String
  exec : String → Bool
  state : Option AttachedState := none

/-- The regex literal `/$^/` returned when construction fails outside
debug mode (line 300).  Its language: `$` can hold only at the end of the
input and `^` only at the start, so it matches exactly the empty string. -/
def fallbackRegex : CompiledRegex where
  source := "$^"
  flags := ""
  exec := fun s => s = ""

/-- Steps 3-5 of `makeRe` (lines 260-275): pick the output fragment and
the compiler state, trying the fast-path table (only for a leading `.` or
`*`, with the optional-trailing-slash suffix appended to a truthy,
i.e. non-empty, fast-path output unless `strictSlashes`), then the
literal no-metacharacter path, then full parsing. -/
def fragmentOf (env : Env) (opts : Options) (input : String) : Frag × AttachedState :=
  let fast : Option Frag :=
    if opts.fastpaths && (headIs input '.' || headIs input '*') then
      match env.fastpathsFn input opts with
      | some f => some (if f.src ≠ "" && !opts.strictSlashes then optSlash f else f)
      | none => none
    else none
  match fast with
  | some f => (f, ⟨false, true, none⟩)
  | none =>
    if !(hasSpecialChars input) then (litFrag input, ⟨false, true, none⟩)
    else
      let st := env.parseFn input opts
      (st.output, ⟨st.negated, st.fastpaths, some st.output⟩)

/-- Steps 7-8 of `makeRe` (lines 281-284): wrap the fragment with the
anchors (empty in `contains` mode) and, when the compiler reported
`negated`, transform the wrapped source once into the complement shape. -/
def assembledSource (opts : Options) (negated : Bool) (src : String) : String :=
  let base :=
    (if opts.contains then "" else "^") ++ "(?:" ++ src ++ ")" ++
      (if opts.contains then "" else "$")
  if negated then "^(?!" ++ base ++ ").*$" else base

/-- The semantics of the assembled source, as a function of the fragment
semantics: plain anchored wrapping is the fragment's full-string
language; `contains` mode is its substring closure; the negated shape
`^(?!wrapped).*$` matches when the lookahead body fails at position zero
and `.*$` then spans the whole (line-terminator-free) input. -/
def assembledExec (contains negated : Bool) (sem : String → Bool) : String → Bool :=
  if negated then
    fun s => !(if contains then initClosure sem s else sem s) && noLT s
  else if contains then subClosure sem else sem

/-- `picomatch.toRegex(source, options)` (lines 294-302): construct the
host regex; on construction failure re-throw in debug mode, otherwise
substitute the match-nothing fallback.  The meaning `ex` of a
successfully constructed source is supplied by the caller (`makeRe`),
which is where the host `new RegExp` semantics enters the model. -/
def toRegex (env : Env) (ex : String → Bool) (source : String) (options : Options) : Except JsError CompiledRegex :=
  if env.regexOk source (flagsOf options) then
    .ok { source := source, flags := flagsOf options, exec := ex }
  else if options.debug then .error .regexCtor
  else .ok fallbackRegex

/-- `picomatch.makeRe` with `returnOutput = true` (lines 247-279): reject
a non-string or empty pattern, strip a leading `./`, select the fragment,
and return its raw source. -/
def makeReOutput (env : Env) (input : PatArg) (opts : Options) : Except JsError String :=
  match input with
  | .str s =>
    if s = "" then .error (.typeError "Expected a non-empty string")
    else .ok (fragmentOf env opts (stripLeadDotSlash s)).1.src
  | _ => .error (.typeError "Expected a non-empty string")

/-- `picomatch.makeRe` with `returnOutput = false` (lines 247-292):
fragment selection, source assembly, negation transform, regex
construction, and the optional attachment of the compiler state. -/
def makeReRegex (env : Env) (input : PatArg) (opts : Options) (returnState : Bool) : Except JsError CompiledRegex :=
  match input with
  | .str s =>
    if s = "" then .error (.typeError "Expected a non-empty string")
    else
      let stripped := stripLeadDotSlash s
      let fs := fragmentOf env opts stripped
      let source := assembledSource opts fs.2.negated fs.1.src
      let ex := assembledExec opts.contains fs.2.negated fs.1.sem
      match toRegex env ex source opts with
      | .error e => .error e
      | .ok r => .ok (if returnState then { r with state := some fs.2 } else r)
  | _ => .error (.typeError "Expected a non-empty string")

/-- The final path segment under POSIX conventions: everything after the
last `/`.  Modelled from the spec: Node's `path.posix.basename`, which is
not part of the visible source (trailing-separator trimming is omitted;
no claim exercises it). -/
def basenamePosix (s : String) : String :=
  String.mk ((s.data.reverse.takeWhile (fun c => c ≠ '/')).reverse)

/-- The final path segment under host (Windows-capable) conventions:
everything after the last `/` or `\`.  Modelled from the spec: Node's
`path.basename`, which is not part of the visible source. -/
def basenameWin (s : String) : String :=
  String.mk ((s.data.reverse.takeWhile (fun c => c ≠ '/' && c ≠ '\\')).reverse)

/-- The second argument of `picomatch.matchBase`: a regex instance or a
raw pattern string compiled on demand. -/
inductive ReOrPat where
  | re (r : CompiledRegex)
  | pat (p : String)

/-- `picomatch.matchBase(input, glob, options, posix)` (lines 119-127):
compile the pattern unless it is already a regex, extract the final path
segment of the input per the `posix` flag, and test the regex against
that segment alone. -/
def matchBase (env : Env) (input : String) (g : ReOrPat) (options : Options) (posix : Bool) : Except JsError Bool :=
  match g with
  | .re r => .ok (r.exec (if posix then basenamePosix input else basenameWin input))
  | .pat p =>
    match makeReRegex env (.str p) options false with
    | .error e => .error e
    | .ok r => .ok (r.exec (if posix then basenamePosix input else basenameWin input))

/-- The record `picomatch.test` returns: `{ isMatch, match, output }`. -/
structure TestRes where
  isMatch : Bool
  matchv : MatchVal
  output : String
deriving DecidableEq

/-- `picomatch.test(input, regex, options, { glob, posix })` (lines
89-117): reject non-string input; short-circuit the empty input; try
exact literal equality against the pattern, then equality of the
formatted input; otherwise (or when `capture` forces it) fall back to
base-name matching or a full regex execution on the formatted output. -/
def test (env : Env) (input : InputArg) (regex : CompiledRegex) (options : Options) (glob : String) (posix : Bool) : Except JsError TestRes :=
  match input with
  | .other => .error (.typeError "Expected input to be a string")
  | .str s =>
    if s = "" then .ok ⟨false, .undef, ""⟩
    else
      let format : Option (String → String) :=
        match options.format with
        | some f => some f
        | none => if posix then some toPosixSlashes else none
      let m1 : Bool := s = glob
      let out1 : String :=
        if m1 then (match format with | some f => f s | none => s) else s
      let p2 : Bool × String :=
        if m1 = false then
          let o := match format with | some f => f s | none => s
          (o = glob, o)
        else (m1, out1)
      if p2.1 = false || options.capture then
        if options.matchBase || options.basename then
          match matchBase env s (.re regex) options posix with
          | .error e => .error e
          | .ok b => .ok ⟨b, .bool b, p2.2⟩
        else
          let e := regex.exec p2.2
          .ok ⟨e, .execRes e, p2.2⟩
      else .ok ⟨p2.1, .bool p2.1, p2.2⟩

/-- The per-invocation result record assembled by the matcher (line 57):
`{ glob, state, regex, posix, input, output, match, isMatch }`. -/
structure MatchResult where
  glob : String
  state : Option AttachedState
  regex : CompiledRegex
  posix : Bool
  input : InputArg
  output : String
  matchv : MatchVal
  isMatch : Bool

/-- What a matcher invocation returns: `false`/`true`, or the full result
record when the `returnObject` flag was passed. -/
inductive MRet where
  | bool (b : Bool)
  | obj (r : MatchResult)

/-- JS truthiness of a matcher result (an object is always truthy). -/
def truthyR : MRet → Bool
  | .bool b => b
  | .obj _ => true

/-- A matcher: a callable taking the input and the optional
`returnObject` flag, possibly throwing (on non-string input). -/
def Matcher : Type :=
  InputArg → Bool → Except JsError MRet

/-- The matcher closure built for a single string pattern (lines 55-80):
run the executor, assemble the result record, return `false` on a
non-match, suppress the match when the ignore filter accepts the input,
and otherwise report the match, in each case honouring `returnObject`. -/
def matcherFun (env : Env) (glob : String) (opts : Options) (posix : Bool) (regex : CompiledRegex) (state : Option AttachedState) (isIgnored : Matcher) : Matcher :=
  fun input returnObject =>
    match test env input regex opts glob posix with
    | .error e => .error e
    | .ok t =>
      let result : MatchResult :=
        { glob := glob, state := state, regex := regex, posix := posix,
          input := input, output := t.output, matchv := t.matchv, isMatch := t.isMatch }
      if t.isMatch = false then
        .ok (if returnObject then .obj { result with isMatch := false } else .bool false)
      else
        match isIgnored input false with
        | .error e => .error e
        | .ok ign =>
          if truthyR ign then
            .ok (if returnObject then .obj { result with isMatch := false } else .bool false)
          else .ok (if returnObject then .obj result else .bool true)

/-- The options passed when building the ignore filter (line 52):
`{ ...options, ignore: null, onMatch: null }`. -/
def clearIgnore (opts : Options) : Options :=
  { opts with ignore := none, onMatch := none }

/-- The loop body of an array matcher (lines 31-37): invoke each
sub-matcher (without the `returnObject` flag) left to right, return the
first truthy result, and `false` when none matches. -/
def orLoop (fns : List Matcher) (input : InputArg) : Except JsError MRet :=
  match fns with
  | [] => .ok (.bool false)
  | f :: fs =>
    match f input false with
    | .error e => .error e
    | .ok r => if truthyR r then .ok r else orLoop fs input

mutual

/-- The Matcher Factory `picomatch(glob, options, returnState)` (lines
28-87): an array yields the left-to-right OR of the per-element matchers
(each element built eagerly, with the loop body invoking each sub-matcher
without the `returnObject` flag); a non-string non-array or empty-string
pattern is a `TypeError`; a string pattern is compiled with state capture
(the state is then detached from the regex), wired to an ignore filter
(the always-not-ignored function, or a full factory invocation over
`options.ignore` with `ignore` and `onMatch` cleared). -/
def picomatch (env : Env) (glob : PatArg) (options : Options) (returnState : Bool) : Except JsError Matcher :=
  match glob with
  | .arr l =>
    match picomatchList env l options returnState with
    | .error e => .error e
    | .ok fns => .ok (fun input _ => orLoop fns input)
  | .str s =>
    if s = "" then .error (.typeError "Expected pattern to be a non-empty string")
    else
      let posix := env.isWindows options
      match makeReRegex env (.str s) options true with
      | .error e => .error e
      | .ok regex0 =>
        let state := regex0.state
        let regex := { regex0 with state := none }
        match (match _h : options.ignore with
               | none => Except.ok (fun _ _ => Except.ok (MRet.bool false) : Matcher)
               | some ig => picomatch env ig (clearIgnore options) returnState) with
        | .error e => .error e
        | .ok isIgnored => .ok (matcherFun env s options posix regex state isIgnored)
  | .other => .error (.typeError "Expected pattern to be a non-empty string")
termination_by
  (match options.ignore with | none => 0 | some g => 1 + sizeOf g) + sizeOf glob
decreasing_by
  all_goals simp_wf
  all_goals simp_all [clearIgnore]
  all_goals omega

/-- `glob.map(input => picomatch(input, options, returnState))` (line 30):
build one matcher per element, left to right, propagating the first
construction failure. -/
def picomatchList (env : Env) (l : List PatArg) (options : Options) (returnState : Bool) : Except JsError (List Matcher) :=
  match l with
  | [] => .ok []
  | p :: ps =>
    match picomatch env p options returnState with
    | .error e => .error e
    | .ok m =>
      match picomatchList env ps options returnState with
      | .error e => .error e
      | .ok ms => .ok (m :: ms)
termination_by
  (match options.ignore with | none => 0 | some g => 1 + sizeOf g) + sizeOf l
decreasing_by
  all_goals simp_wf
  all_goals omega

end

/-- Build the matcher for a pattern and invoke it once. -/
def runMatcher (env : Env) (glob : PatArg) (options : Options) (returnState : Bool) (input : InputArg) (returnObject : Bool) : Except JsError MRet :=
  match picomatch env glob options returnState with
  | .error e => .error e
  | .ok m => m input returnObject

/-- `picomatch.isMatch(str, patterns, options)` (line 146). -/
def isMatch (env : Env) (str : InputArg) (patterns : PatArg) (options : Options) : Except JsError MRet :=
  runMatcher env patterns options false str false

/-!
A positional model of JavaScript regular-expression matching, for the
source shapes the assembler itself produces: anchors, `(?:...)` grouping,
`(?!...)` negative lookahead, `.` and `*`, literal characters, and an
opaque compiler fragment (about which only its behaviour under full
anchoring is known, which is how the anchored pipeline uses it).  It
grounds the executable semantics `assembledExec` attached to compiled
regexes.
-/

/-- Abstract syntax of the assembled regex sources. -/
inductive ReAst where
  | eps
  | lit (c : Char)
  | dot
  | caret
  | dollar
  | star (r : ReAst)
  | group (r : ReAst)
  | neglook (r : ReAst)
  | seq (a b : ReAst)
  | frag (src : String) (sem : String → Bool)

/-- Render an AST back to regex source text.  A literal character is
rendered with the escaping the literal fast path uses (only `.` and `/`
are escaped); an opaque fragment renders as its source. -/
def sourceOf : ReAst → String
  | .eps => ""
  | .lit c => if c = '.' || c = '/' then String.mk ['\\', c] else String.mk [c]
  | .dot => "."
  | .caret => "^"
  | .dollar => "$"
  | .star r => sourceOf r ++ "*"
  | .group r => "(?:" ++ sourceOf r ++ ")"
  | .neglook r => "(?!" ++ sourceOf r ++ ")"
  | .seq a b => sourceOf a ++ sourceOf b
  | .frag src _ => src

/-- `SpansF r w i j`: against the whole input `w`, the expression `r`
matches the span from position `i` to position `j`.  `^` holds only at
position 0 and `$` only at the end (no multiline flag); `.` consumes one
non-line-terminator character; `*` is the reflexive-transitive closure;
`(?!r)` is zero-width and requires `r` to match no span from the current
position; an opaque fragment spans exactly the whole input when its
full-string language accepts it (the only usage reachable under the
anchored wrapping the assembler produces). -/
def SpansF : ReAst → List Char → Nat → Nat → Prop
  | .eps, _, i, j => j = i
  | .lit c, w, i, j => j = i + 1 ∧ ∃ h : i < w.length, w.get ⟨i, h⟩ = c
  | .dot, w, i, j => j = i + 1 ∧ ∃ h : i < w.length, isLT (w.get ⟨i, h⟩) = false
  | .caret, _, i, j => i = 0 ∧ j = 0
  | .dollar, w, i, j => i = w.length ∧ j = w.length
  | .star r, w, i, j => Relation.ReflTransGen (fun a b => SpansF r w a b) i j
  | .group r, w, i, j => SpansF r w i j
  | .neglook r, w, i, j => j = i ∧ ∀ k, ¬ SpansF r w i k
  | .seq a b, w, i, j => ∃ m, SpansF a w i m ∧ SpansF b w m j
  | .frag _ sem, w, i, j => i = 0 ∧ j = w.length ∧ sem (String.mk w) = true

/-- `regex.exec(s)` is truthy: the expression matches some span of `s`
(the host engine tries every start position). -/
def ExecMatch (r : ReAst) (s : String) : Prop :=
  ∃ i j, SpansF r s.data i j

/-- The anchored wrapping `^(?:X)$` of step 7 of the assembler. -/
def wrapAst (x : ReAst) : ReAst :=
  .seq .caret (.seq (.group x) .dollar)

/-- The negation transform `^(?!^(?:X)$).*$` of step 8 of the assembler. -/
def negAst (x : ReAst) : ReAst :=
  .seq .caret (.seq (.neglook (wrapAst x)) (.seq (.star .dot) .dollar))

theorem spans_wrapAst_iff (x : ReAst) (w : List Char) (i j : Nat) :
    SpansF (wrapAst x) w i j ↔ i = 0 ∧ j = w.length ∧ SpansF x w 0 w.length := by
  simp only [wrapAst, SpansF]
  constructor
  · rintro ⟨m, ⟨hi, hm⟩, m2, hx, hend, hj⟩
    subst hi hm hend hj
    exact ⟨rfl, rfl, hx⟩
  · rintro ⟨hi, hj, hx⟩
    subst hi hj
    exact ⟨0, ⟨rfl, rfl⟩, w.length, hx, rfl, rfl⟩

theorem starDot_bound {w : List Char} {i j : Nat}
    (h : Relation.ReflTransGen (fun a b => SpansF .dot w a b) i j) :
    i ≤ j ∧ ∀ k, i ≤ k → k < j → ∃ hk : k < w.length, isLT (w.get ⟨k, hk⟩) = false := by
  induction h with
  | refl => exact ⟨le_refl _, fun k hk1 hk2 => absurd (lt_of_le_of_lt hk1 hk2) (lt_irrefl _)⟩
  | tail hab hbc ih =>
    obtain ⟨hij, hall⟩ := ih
    obtain ⟨hj, hb, hlt⟩ := hbc
    subst hj
    refine ⟨le_trans hij (Nat.le_succ _), fun k hk1 hk2 => ?_⟩
    rcases Nat.lt_succ_iff_lt_or_eq.mp hk2 with hk | hk
    · exact hall k hk1 hk
    · subst hk
      exact ⟨hb, hlt⟩

theorem starDot_of_all {w : List Char} :
    ∀ j, j ≤ w.length → (∀ k, k < j → ∃ hk : k < w.length, isLT (w.get ⟨k, hk⟩) = false) →
    Relation.ReflTransGen (fun a b => SpansF .dot w a b) 0 j := by
  intro j
  induction j with
  | zero => intro _ _; exact Relation.ReflTransGen.refl
  | succ n ih =>
    intro hlen hall
    refine Relation.ReflTransGen.tail (ih (le_trans (Nat.le_succ _) hlen) ?_) ?_
    · intro k hk
      exact hall k (lt_of_lt_of_le hk (Nat.le_succ _))
    · exact show (n + 1 = n + 1 ∧ ∃ hk : n < w.length, isLT (w.get ⟨n, hk⟩) = false) from
        ⟨rfl, hall n (Nat.lt_succ_self _)⟩

theorem noLT_iff_all (s : String) :
    noLT s = true ↔ ∀ k, ∀ hk : k < s.data.length, isLT (s.data.get ⟨k, hk⟩) = false := by
  simp only [noLT, List.all_eq_true, Bool.not_eq_true']
  constructor
  · intro h k hk
    exact h _ (s.data.get_mem k hk)
  · intro h c hc
    obtain ⟨k, hk⟩ := List.get_of_mem hc
    rw [← hk]
    exact h _ _

theorem stringMk_data (s : String) : String.mk s.data = s := by
  cases s
  rfl

/-- The meaning of the negation transform: the assembled regex
`^(?!^(?:X)$).*$` matches exactly the line-terminator-free strings whose
whole text `X` does not match. -/
theorem execMatch_negAst_iff (x : ReAst) (s : String) :
    ExecMatch (negAst x) s ↔ ¬ SpansF x s.data 0 s.data.length ∧ noLT s = true := by
  simp only [ExecMatch, negAst, wrapAst, SpansF]
  constructor
  · rintro ⟨i, j, m, ⟨hi, hm⟩, m1, ⟨hm1, hno⟩, m2, hstar, hend, hj⟩
    subst hi hm hm1
    obtain ⟨-, hall⟩ := starDot_bound hstar
    subst hend
    constructor
    · intro hxx
      exact hno s.data.length ⟨0, ⟨rfl, rfl⟩, s.data.length, hxx, rfl, rfl⟩
    · exact (noLT_iff_all s).mpr (fun k hk => (hall k (Nat.zero_le _) hk).choose_spec)
  · rintro ⟨hx, hno⟩
    refine ⟨0, s.data.length, 0, ⟨rfl, rfl⟩, 0, ⟨rfl, fun k hk => ?_⟩, s.data.length, ?_, rfl, rfl⟩
    · obtain ⟨m2, ⟨-, hm2⟩, m3, hx3, hm3, -⟩ := hk
      subst hm2 hm3
      exact hx hx3
    · refine starDot_of_all _ (le_refl _) ?_
      intro k hk
      exact ⟨hk, (noLT_iff_all s).mp hno k hk⟩

/-- The meaning of the plain anchored wrapping around an opaque fragment:
exactly the fragment language over full strings. -/
theorem execMatch_wrapFrag_iff (src : String) (sem : String → Bool) (s : String) :
    ExecMatch (wrapAst (.frag src sem)) s ↔ sem s = true := by
  simp only [ExecMatch, wrapAst, SpansF, stringMk_data]
  constructor
  · rintro ⟨i, j, m, ⟨hi, hm⟩, m1, ⟨-, -, hsem⟩, hend, hj⟩
    exact hsem
  · intro h
    exact ⟨0, s.data.length, 0, ⟨rfl, rfl⟩, s.data.length, ⟨rfl, rfl, h⟩, rfl, rfl⟩

/-- `assembledExec` agrees with the positional model on the negated
anchored shape: the executable semantics the pipeline attaches to a
negated compiled pattern is the model semantics of the assembled source
shape. -/
theorem assembledExec_neg_models (f : Frag) (s : String) :
    assembledExec false true f.sem s = true ↔ ExecMatch (negAst (.frag f.src f.sem)) s := by
  rw [execMatch_negAst_iff]
  simp [assembledExec, SpansF, stringMk_data]

/-- `assembledExec` agrees with the positional model on the plain
anchored shape. -/
theorem assembledExec_plain_models (f : Frag) (s : String) :
    assembledExec false false f.sem s = true ↔ ExecMatch (wrapAst (.frag f.src f.sem)) s := by
  rw [execMatch_wrapFrag_iff]
  simp [assembledExec]

/-- The AST of a literal character sequence (the literal fast path). -/
def litsAst : List Char → ReAst
  | [] => .eps
  | c :: cs => .seq (.lit c) (litsAst cs)

theorem spans_litsAst_iff (l : List Char) :
    ∀ (w : List Char) (i j : Nat),
      SpansF (litsAst l) w i j ↔ j = i + l.length ∧ l <+: w.drop i := by
  induction l with
  | nil =>
    intro w i j
    simp [litsAst, SpansF]
  | cons c cs ih =>
    intro w i j
    simp only [litsAst, SpansF, ih]
    constructor
    · rintro ⟨m, ⟨hm, hlt, hc⟩, hj, hpre⟩
      subst hm hj
      refine ⟨by simp only [List.length_cons]; omega, ?_⟩
      rw [List.drop_eq_getElem_cons hlt]
      simp only [List.get_eq_getElem] at hc
      rw [hc]
      exact List.cons_prefix_cons.mpr ⟨rfl, hpre⟩
    · rintro ⟨hj, hpre⟩
      have hlt : i < w.length := by
        by_contra hge
        rw [List.drop_eq_nil_of_le (Nat.le_of_not_lt hge)] at hpre
        exact List.noConfusion (List.prefix_nil.mp hpre)
      rw [List.drop_eq_getElem_cons hlt] at hpre
      obtain ⟨hc, hpre2⟩ := List.cons_prefix_cons.mp hpre
      refine ⟨i + 1, ⟨rfl, hlt, by simp [hc]⟩, by simp only [List.length_cons] at hj ⊢; omega, hpre2⟩

/-- Validation of the literal fast path against the positional regex
model: the anchored literal expression matches exactly the literal
itself, which is the language `litFrag` records. -/
theorem exec_anchored_lits_iff (s t : String) :
    ExecMatch (wrapAst (litsAst s.data)) t ↔ (litFrag s).sem t = true := by
  simp only [ExecMatch, spans_wrapAst_iff, litFrag]
  constructor
  · rintro ⟨i, j, -, -, h⟩
    rw [spans_litsAst_iff] at h
    obtain ⟨hlen, hpre⟩ := h
    rw [List.drop_zero] at hpre
    have hdata : s.data = t.data := hpre.eq_of_length (by omega)
    have hts : t = s := by
      rw [← stringMk_data t, ← stringMk_data s, hdata]
    simp [hts]
  · intro h
    have hts : t = s := by simpa using h
    subst hts
    refine ⟨0, t.data.length, rfl, rfl, ?_⟩
    rw [spans_litsAst_iff]
    exact ⟨by omega, by simp⟩

theorem sourceOf_litsAst_data (l : List Char) :
    sourceOf (litsAst l) =
      String.mk (l.foldr (fun c acc => if c = '.' || c = '/' then '\\' :: c :: acc else c :: acc) []) := by
  induction l with
  | nil => rfl
  | cons c cs ih =>
    simp only [litsAst, sourceOf, ih]
    by_cases hc : c = '.' || c = '/'
    · simp only [List.foldr_cons, hc, if_true]
      rfl
    · simp only [List.foldr_cons, hc, if_false]
      rfl

/-- Validation of the literal fast path source rendering: the literal
AST renders to exactly the escaped source the assembler produces. -/
theorem sourceOf_litsAst (s : String) : sourceOf (litsAst s.data) = escapeLit s := by
  rw [sourceOf_litsAst_data]
  rfl

/-- The working directory chosen by `split` (line 192):
`options && options.cwd ? options.cwd : process.cwd()` (with JS falsiness
of the empty string). -/
def splitCwd (env : Env) (options : Option Options) : String :=
  match options with
  | some o =>
    match o.cwd with
    | some c => if c = "" then env.cwd else c
    | none => env.cwd
  | none => env.cwd

/-- Modelled from the spec: Node's `path.resolve(cwd, p)`, which is not
part of the visible source — an already-absolute path stands alone, an
empty path yields the directory, anything else is joined onto it
(dot-segment normalization is omitted; no claim exercises it). -/
def pathResolve (cwd p : String) : String :=
  if headIs p '/' then p else if p = "" then cwd else cwd ++ "/" ++ p

/-- The record `picomatch.split` returns. -/
structure SplitRes where
  base : String
  glob : String
  cwd : String
deriving DecidableEq

/-- `picomatch.split(pattern, options)` (lines 190-201): invoke the
Scanner (with the raw, possibly-`undefined` options), choose the working
directory, compute the slash-stripped base into a local that the rest of
the function never reads (dead code, kept as in the source), and return
the scanner's own base and glob with the resolved cwd. -/
def split (env : Env) (pattern : String) (options : Option Options) : SplitRes :=
  let state := env.scanFn pattern options
  let cwd := splitCwd env options
  let _base := if headIs state.base '/' then String.mk state.base.data.tail else state.base
  { base := state.base, glob := state.glob, cwd := pathResolve cwd state.base }

/-- Modelled from the spec: Node's `path.posix.join` on two segments
(empty segments and a `.` base collapse; no dot-segment normalization,
which no claim exercises). -/
def posixJoin2 (a b : String) : String :=
  if a = "" || a = "." then b else if b = "" then a else a ++ "/" ++ b

/-- Modelled from the spec: Node's `path.posix.join` over a segment list
(zero segments yield `.`). -/
def posixJoinList (l : List String) : String :=
  match l with
  | [] => "."
  | x :: xs => xs.foldl posixJoin2 x

/-- Modelled from the spec: Node's `path.posix.resolve` against the
process working directory: fold left, an absolute segment resets the
accumulator. -/
def posixResolve (cwd : String) (l : List String) : String :=
  l.foldl (fun acc seg => if headIs seg '/' then seg else posixJoin2 acc seg) cwd

/-- `picomatch.join(...args)` (lines 211-215): pop the glob suffix, join
the preceding segments as a POSIX path, slash-normalize, and POSIX-join
the glob onto the result.  Zero arguments are a `TypeError` (Node throws
when `path.posix.join` receives the popped `undefined`). -/
def join (args : List String) : Except JsError String :=
  match args.getLast? with
  | none => .error (.typeError "Path must be a string. Received undefined")
  | some glob => .ok (posixJoin2 (toPosixSlashes (posixJoinList args.dropLast)) glob)

/-- `picomatch.resolve(...args)` (lines 225-229): as `join`, but the base
is first resolved to an absolute path against the process working
directory. -/
def resolve (env : Env) (args : List String) : Except JsError String :=
  match args.getLast? with
  | none => .error (.typeError "Path must be a string. Received undefined")
  | some glob => .ok (posixJoin2 (toPosixSlashes (posixResolve env.cwd args.dropLast)) glob)

/-- The suffixes of a string reachable by consuming zero or more
non-separator characters (the strings a single `*` can skip over). -/
def starSuffixes : List Char → List (List Char)
  | [] => [[]]
  | c :: cs => (c :: cs) :: (if c = '/' then [] else starSuffixes cs)

/-- Modelled from the spec: the glob semantics of the opaque Syntax
Compiler, for the simple pattern subset the concrete examples exercise —
literal characters and `*` (a run of zero or more non-separator
characters, per the glossary).  Bracket expressions, extglobs and braces
are outside this subset. -/
def miniGlobMatch : List Char → List Char → Bool
  | [], s => s.isEmpty
  | '*' :: ps, s => (starSuffixes s).any (fun t => miniGlobMatch ps t)
  | _ :: _, [] => false
  | c :: ps, d :: ds => c = d && miniGlobMatch ps ds

/-- Modelled from the spec: the regex-source fragment the modelled
compiler emits — `*` becomes `[^/]*`, `.` and `/` are escaped, other
characters stand for themselves. -/
def miniTranslate (p : String) : String :=
  String.mk (p.data.foldr
    (fun c acc =>
      if c = '*' then '[' :: '^' :: '/' :: ']' :: '*' :: acc
      else if c = '.' || c = '/' then '\\' :: c :: acc
      else c :: acc) [])

/-- Modelled from the spec: the opaque Syntax Compiler over the simple
subset; a leading `!` negates the remainder of the pattern. -/
def modelParse (p : String) : PState :=
  if headIs p '!' then
    { output := { src := miniTranslate (String.mk p.data.tail),
                  sem := fun t => miniGlobMatch p.data.tail t.data },
      negated := true, fastpaths := true }
  else
    { output := { src := miniTranslate p,
                  sem := fun t => miniGlobMatch p.data t.data },
      negated := false, fastpaths := true }

/-- Modelled from the spec: the fast-path table, providing precomputed
fragments for the very common simple patterns `*` and `**` and nothing
else. -/
def modelFastpaths (p : String) : Option Frag :=
  if p = "*" then some { src := "[^/]*", sem := fun t => miniGlobMatch ['*'] t.data }
  else if p = "**" then some { src := ".*", sem := fun t => noLT t }
  else none

/-- A concrete environment instantiating the opaque collaborators with
the spec-modelled implementations: POSIX host, working directory `/cwd`,
every assembled source valid.  The scanner model is degenerate (empty
base); theorems about `split` quantify over the scanner or supply their
own. -/
def modelEnv : Env where
  parseFn := fun p _ => modelParse p
  fastpathsFn := fun p _ => modelFastpaths p
  scanFn := fun p _ => { base := "", glob := p }
  isWindows := fun _ => false
  cwd := "/cwd"
  regexOk := fun _ _ => true

/-- Classifier for results that do not report a match. -/
def notTrueRet : MRet → Prop
  | .bool b => b = false
  | .obj rec => rec.isMatch = false

theorem matcherFun_false_bool (env : Env) (g : String) (opts : Options) (posix : Bool)
    (regex : CompiledRegex) (st : Option AttachedState) (ign : Matcher) (input : InputArg) (r : MRet)
    (h : matcherFun env g opts posix regex st ign input false = .ok r) : ∃ b, r = .bool b := by
  unfold matcherFun at h
  split at h
  · exact absurd h (by simp)
  · split at h
    · exact ⟨false, by simpa using h.symm⟩
    · split at h
      · exact absurd h (by simp)
      · split at h
        · exact ⟨false, by simpa using h.symm⟩
        · exact ⟨true, by simpa using h.symm⟩

theorem orLoop_ok_cases (fns : List Matcher) (input : InputArg) (r : MRet)
    (h : orLoop fns input = .ok r) :
    r = .bool false ∨ (truthyR r = true ∧ ∃ f ∈ fns, f input false = .ok r) := by
  induction fns with
  | nil =>
    left
    simpa [orLoop] using h.symm
  | cons f fs ih =>
    unfold orLoop at h
    split at h
    · exact absurd h (by simp)
    · split at h
      · injection h with h2
        subst h2
        right
        refine ⟨by assumption, f, by simp, by assumption⟩
      · rcases ih h with hl | ⟨ht, g, hg, hgr⟩
        · exact .inl hl
        · exact .inr ⟨ht, g, by simp [hg], hgr⟩

theorem picomatchList_mem (env : Env) (opts : Options) (rs : Bool) :
    ∀ (l : List PatArg) (fns : List Matcher) (f : Matcher),
    picomatchList env l opts rs = .ok fns → f ∈ fns →
    ∃ p ∈ l, picomatch env p opts rs = .ok f := by
  intro l
  induction l with
  | nil =>
    intro fns f hl hf
    simp only [picomatchList] at hl
    obtain rfl : ([] : List Matcher) = fns := by simpa using hl
    simp at hf
  | cons p ps ih =>
    intro fns f hl hf
    unfold picomatchList at hl
    split at hl
    · exact absurd hl (by simp)
    · split at hl
      · exact absurd hl (by simp)
      · obtain rfl : _ = fns := by simpa using hl
        rcases List.mem_cons.mp hf with rfl | hmem
        · exact ⟨p, by simp, by assumption⟩
        · obtain ⟨q, hq, hqf⟩ := ih _ f (by assumption) hmem
          exact ⟨q, by simp [hq], hqf⟩

theorem sizeOf_patArg_pos (p : PatArg) : 1 ≤ sizeOf p := by
  cases p <;> simp

theorem roFalse_bool : ∀ (n : Nat) (env : Env) (p : PatArg) (opts : Options) (rs : Bool)
    (input : InputArg) (r : MRet),
    sizeOf p ≤ n → runMatcher env p opts rs input false = .ok r → ∃ b, r = .bool b := by
  intro n
  induction n with
  | zero =>
    intro env p opts rs input r hn
    exact absurd hn (by have := sizeOf_patArg_pos p; omega)
  | succ n ih =>
    intro env p opts rs input r hn h
    match p with
    | .other => simp [runMatcher, picomatch] at h
    | .str s =>
      simp only [runMatcher] at h
      split at h
      · exact absurd h (by simp)
      · rename_i m heq
        unfold picomatch at heq
        by_cases hs : s = ""
        · simp [hs] at heq
        · simp only [hs, if_false, if_neg hs] at heq
          split at heq
          · exact absurd heq (by simp)
          · split at heq
            · exact absurd heq (by simp)
            · injection heq with heq2
              rw [← heq2] at h
              exact matcherFun_false_bool _ _ _ _ _ _ _ _ _ h
    | .arr l =>
      simp only [runMatcher] at h
      split at h
      · exact absurd h (by simp)
      · rename_i m heq
        unfold picomatch at heq
        split at heq
        · exact absurd heq (by simp)
        · rename_i fns hfns
          injection heq with heq2
          rw [← heq2] at h
          rcases orLoop_ok_cases fns input r h with hb | ⟨htr, f, hf, hfr⟩
          · exact ⟨false, hb⟩
          · obtain ⟨q, hq, hqf⟩ := picomatchList_mem env opts rs l fns f hfns hf
            have hsz : sizeOf q ≤ n := by
              have h1 := List.sizeOf_lt_of_mem hq
              have h2 : sizeOf (PatArg.arr l) = 1 + sizeOf l := by simp
              omega
            exact ih env q opts rs input r hsz (by simp [runMatcher, hqf, hfr])

theorem ignore_suppresses : ∀ (n : Nat) (env : Env) (p : PatArg) (opts : Options) (rs : Bool)
    (ig : PatArg) (input : InputArg) (ro : Bool) (r : MRet),
    sizeOf p ≤ n →
    opts.ignore = some ig →
    runMatcher env ig (clearIgnore opts) rs input false = .ok (.bool true) →
    runMatcher env p opts rs input ro = .ok r →
    notTrueRet r := by
  intro n
  induction n with
  | zero =>
    intro env p opts rs ig input ro r hn
    exact absurd hn (by have := sizeOf_patArg_pos p; omega)
  | succ n ih =>
    intro env p opts rs ig input ro r hn hig hacc h
    match p with
    | .other => simp [runMatcher, picomatch] at h
    | .str s =>
      simp only [runMatcher] at h hacc
      split at h
      · exact absurd h (by simp)
      · rename_i m heq
        unfold picomatch at heq
        by_cases hs : s = ""
        · simp [hs] at heq
        · simp only [hs, if_false, if_neg hs] at heq
          split at heq
          · exact absurd heq (by simp)
          · split at hacc
            · exact absurd hacc (by simp)
            · rename_i mig higq
              split at heq
              · exact absurd heq (by simp)
              · rename_i mig2 heq2
                injection heq with heqm
                rw [← heqm] at h
                split at heq2
                · simp_all
                · rename_i ig2 hig2
                  rw [hig] at hig2
                  injection hig2 with hig3
                  subst hig3
                  rw [higq] at heq2
                  injection heq2 with heq3
                  unfold matcherFun at h
                  split at h
                  · exact absurd h (by simp)
                  · split at h
                    · injection h with h2
                      rw [← h2]
                      cases ro <;> simp [notTrueRet]
                    · rw [← heq3, hacc] at h
                      simp only [truthyR, if_true] at h
                      injection h with h2
                      rw [← h2]
                      cases ro <;> simp [notTrueRet]
    | .arr l =>
      simp only [runMatcher] at h
      split at h
      · exact absurd h (by simp)
      · rename_i m heq
        unfold picomatch at heq
        split at heq
        · exact absurd heq (by simp)
        · rename_i fns hfns
          injection heq with heq2
          rw [← heq2] at h
          rcases orLoop_ok_cases fns input r h with hb | ⟨htr, f, hf, hfr⟩
          · rw [hb]; simp [notTrueRet]
          · obtain ⟨q, hq, hqf⟩ := picomatchList_mem env opts rs l fns f hfns hf
            have hsz : sizeOf q ≤ n := by
              have h1 := List.sizeOf_lt_of_mem hq
              have h2 : sizeOf (PatArg.arr l) = 1 + sizeOf l := by simp
              omega
            exact ih env q opts rs ig input false r hsz hig hacc (by simp [runMatcher, hqf, hfr])

/-- Claim C10: an empty array passed as the pattern is not rejected as an
invalid argument — the factory succeeds and the resulting matcher
returns false for every input (the non-empty-string check applies only
to non-array patterns). -/
theorem C10_empty_array (env : Env) (opts : Options) (rs : Bool) :
    (∃ m, picomatch env (.arr []) opts rs = .ok m) ∧
    ∀ (input : InputArg) (ro : Bool),
      runMatcher env (.arr []) opts rs input ro = .ok (.bool false) := by
  constructor
  · exact ⟨fun input _ => orLoop [] input, by simp [picomatch, picomatchList]⟩
  · intro input ro
    simp [runMatcher, picomatch, picomatchList, orLoop]

/-- Claim C8: the factory and the regex assembler reject every pattern
that is not a non-empty string (for the factory, arrays excepted) with a
synchronous TypeError; the executor rejects non-string input with a
TypeError, while the empty input string yields the record
`{isMatch: false, output: ""}` rather than an error. -/
theorem C8_invalid_arguments (env : Env) (opts : Options) (rs : Bool) (l : List PatArg)
    (r : CompiledRegex) (g : String) (posix : Bool) :
    picomatch env .other opts rs = .error (.typeError "Expected pattern to be a non-empty string") ∧
    picomatch env (.str "") opts rs = .error (.typeError "Expected pattern to be a non-empty string") ∧
    makeReRegex env .other opts rs = .error (.typeError "Expected a non-empty string") ∧
    makeReRegex env (.str "") opts rs = .error (.typeError "Expected a non-empty string") ∧
    makeReRegex env (.arr l) opts rs = .error (.typeError "Expected a non-empty string") ∧
    makeReOutput env .other opts = .error (.typeError "Expected a non-empty string") ∧
    makeReOutput env (.str "") opts = .error (.typeError "Expected a non-empty string") ∧
    test env .other r opts g posix = .error (.typeError "Expected input to be a string") ∧
    test env (.str "") r opts g posix = .ok ⟨false, .undef, ""⟩ := by
  refine ⟨?_, ?_, rfl, rfl, rfl, rfl, rfl, rfl, rfl⟩ <;> simp [picomatch]

/-- Claim C3 (amended): `split` returns the scanner's base unchanged —
the slash-stripped value is computed into a dead local and never used —
together with the scanner's glob and the scanner's base resolved against
the chosen working directory (`options.cwd` when truthy, else the
process working directory). -/
theorem C3_split_shape (env : Env) (pattern : String) (options : Option Options) :
    split env pattern options =
      { base := (env.scanFn pattern options).base,
        glob := (env.scanFn pattern options).glob,
        cwd := pathResolve (splitCwd env options) (env.scanFn pattern options).base } := rfl

/-- An environment whose scanner reports an absolute base, exercising the
leading-slash branch of `split`. -/
def envScanAbs : Env :=
  { modelEnv with scanFn := fun _ _ => { base := "/a", glob := "**" } }

/-- Claim C3 counterexample: the scanner base starts with a slash, yet
`split` returns it unchanged — the returned `base` is not the
slash-stripped value the claim describes. -/
theorem C3_split_base_counterexample :
    (envScanAbs.scanFn "/a/**" none).base = "/a" ∧
    headIs (envScanAbs.scanFn "/a/**" none).base '/' = true ∧
    (split envScanAbs "/a/**" none).base = "/a" ∧
    (split envScanAbs "/a/**" none).base ≠
      String.mk (envScanAbs.scanFn "/a/**" none).base.data.tail := by
  refine ⟨rfl, rfl, rfl, ?_⟩
  decide

/-- Claim C5: an array pattern compiles to the left-to-right, first-match
short-circuiting OR of the per-element matchers, returning false when no
element matches; concretely, `a.a` matches `["b.*", "*.a"]` but not
`b.*` alone (under the spec-modelled compiler environment). -/
theorem C5_array_or (env : Env) (opts : Options) (rs : Bool) (l : List PatArg)
    (input : InputArg) (ro : Bool) (f : Matcher) (fs : List Matcher) :
    (runMatcher env (.arr l) opts rs input ro =
      match picomatchList env l opts rs with
      | .error e => .error e
      | .ok fns => orLoop fns input) ∧
    (orLoop [] input = .ok (.bool false)) ∧
    (orLoop (f :: fs) input =
      match f input false with
      | .error e => .error e
      | .ok r => if truthyR r then .ok r else orLoop fs input) ∧
    isMatch modelEnv (.str "a.a") (.arr [.str "b.*", .str "*.a"]) {} = .ok (.bool true) ∧
    isMatch modelEnv (.str "a.a") (.str "b.*") {} = .ok (.bool false) := by
  refine ⟨?_, rfl, rfl, ?_, ?_⟩
  · simp only [runMatcher, picomatch]
    cases picomatchList env l opts rs <;> rfl
  · simp [isMatch, runMatcher, picomatch, picomatchList, makeReRegex, fragmentOf, modelEnv,
      modelParse, modelFastpaths, matcherFun, test, orLoop, stripLeadDotSlash, hasSpecialChars,
      headIs, isGlobSpecial, assembledSource, assembledExec, toRegex, flagsOf, truthyR,
      miniGlobMatch, starSuffixes, litFrag, escapeLit, miniTranslate]
  · simp [isMatch, runMatcher, picomatch, picomatchList, makeReRegex, fragmentOf, modelEnv,
      modelParse, modelFastpaths, matcherFun, test, orLoop, stripLeadDotSlash, hasSpecialChars,
      headIs, isGlobSpecial, assembledSource, assembledExec, toRegex, flagsOf, truthyR,
      miniGlobMatch, starSuffixes, litFrag, escapeLit, miniTranslate]

/-- Claim C6 (amended): the matcher built for an array ignores the
"return full result object" flag entirely — its result is the same for
any flag value, and is always a boolean (the sub-matchers are invoked
without the flag), never a `MatchResult` record. -/
theorem C6_array_flag_amended (env : Env) (opts : Options) (rs : Bool) (l : List PatArg)
    (input : InputArg) (ro ro2 : Bool) (r : MRet)
    (h : runMatcher env (.arr l) opts rs input ro = .ok r) :
    runMatcher env (.arr l) opts rs input ro = runMatcher env (.arr l) opts rs input ro2 ∧
    ∃ b, r = .bool b := by
  have hflag : ∀ ro3, runMatcher env (.arr l) opts rs input ro = runMatcher env (.arr l) opts rs input ro3 := by
    intro ro3
    simp only [runMatcher, picomatch]
    cases picomatchList env l opts rs <;> rfl
  refine ⟨hflag ro2, ?_⟩
  refine roFalse_bool (sizeOf (PatArg.arr l)) env (.arr l) opts rs input r (le_refl _) ?_
  rw [← hflag false]
  exact h

/-- Claim C6 witness: the amended behaviour at a concrete instance. -/
theorem C6_array_flag_witness :
    runMatcher modelEnv (.arr [.str "ab"]) {} false (.str "ab") true = .ok (.bool true) ∧
    (runMatcher modelEnv (.arr [.str "ab"]) {} false (.str "ab") true =
      runMatcher modelEnv (.arr [.str "ab"]) {} false (.str "ab") false ∧
     ∃ b, MRet.bool true = MRet.bool b) := by
  have hrun : runMatcher modelEnv (.arr [.str "ab"]) {} false (.str "ab") true = .ok (.bool true) := by
    simp [runMatcher, picomatch, picomatchList, makeReRegex, fragmentOf, modelEnv,
      modelParse, modelFastpaths, matcherFun, test, orLoop, stripLeadDotSlash, hasSpecialChars,
      headIs, isGlobSpecial, assembledSource, assembledExec, toRegex, flagsOf, truthyR,
      miniGlobMatch, starSuffixes, litFrag, escapeLit]
  exact ⟨hrun, C6_array_flag_amended modelEnv {} false [.str "ab"] (.str "ab") true false (.bool true) hrun⟩

/-- Claim C6 counterexample: invoked with the "return full result
object" flag set and a matching element, the array matcher returns the
boolean `true`, which is not a `MatchResult` record as the claim
states. -/
theorem C6_array_flag_counterexample :
    runMatcher modelEnv (.arr [.str "cd"]) {} false (.str "cd") true = .ok (.bool true) ∧
    ∀ rec : MatchResult, MRet.bool true ≠ MRet.obj rec := by
  constructor
  · simp [runMatcher, picomatch, picomatchList, makeReRegex, fragmentOf, modelEnv,
      modelParse, modelFastpaths, matcherFun, test, orLoop, stripLeadDotSlash, hasSpecialChars,
      headIs, isGlobSpecial, assembledSource, assembledExec, toRegex, flagsOf, truthyR,
      miniGlobMatch, starSuffixes, litFrag, escapeLit]
  · intro rec h
    exact MRet.noConfusion h

/-- Claim C4: a matcher built with `options.ignore` set never reports a
match for an input the ignore filter (a factory invocation over the
ignore pattern with `ignore` and `onMatch` cleared) accepts — the result
is `false`, or a record whose `isMatch` was forced to `false`, even when
the matcher's own compiled expression matched. -/
theorem C4_ignore_veto (env : Env) (opts : Options) (rs : Bool) (p ig : PatArg)
    (input : InputArg) (ro : Bool) (r : MRet)
    (hig : opts.ignore = some ig)
    (hacc : runMatcher env ig (clearIgnore opts) rs input false = .ok (.bool true))
    (hr : runMatcher env p opts rs input ro = .ok r) :
    notTrueRet r :=
  ignore_suppresses (sizeOf p) env p opts rs ig input ro r (le_refl _) hig hacc hr

/-- Claim C4 witness: pattern `*.a` with ignore pattern `a.a` on input
`a.a` — the underlying expression matches, the ignore filter accepts,
and the matcher reports `false`. -/
theorem C4_ignore_veto_witness :
    ({ ignore := some (.str "a.a") } : Options).ignore = some (.str "a.a") ∧
    runMatcher modelEnv (.str "a.a") (clearIgnore { ignore := some (.str "a.a") }) false
      (.str "a.a") false = .ok (.bool true) ∧
    runMatcher modelEnv (.str "*.a") { ignore := some (.str "a.a") } false
      (.str "a.a") false = .ok (.bool false) ∧
    notTrueRet (MRet.bool false) := by
  have hacc : runMatcher modelEnv (.str "a.a") (clearIgnore { ignore := some (.str "a.a") }) false
      (.str "a.a") false = .ok (.bool true) := by
    simp [runMatcher, picomatch, clearIgnore, makeReRegex, fragmentOf, modelEnv,
      modelParse, modelFastpaths, matcherFun, test, stripLeadDotSlash, hasSpecialChars,
      headIs, isGlobSpecial, assembledSource, assembledExec, toRegex, flagsOf, truthyR,
      litFrag, escapeLit]
  have hr : runMatcher modelEnv (.str "*.a") { ignore := some (.str "a.a") } false
      (.str "a.a") false = .ok (.bool false) := by
    simp [runMatcher, picomatch, clearIgnore, makeReRegex, fragmentOf, modelEnv,
      modelParse, modelFastpaths, matcherFun, test, stripLeadDotSlash, hasSpecialChars,
      headIs, isGlobSpecial, assembledSource, assembledExec, toRegex, flagsOf, truthyR,
      miniGlobMatch, starSuffixes, litFrag, escapeLit, miniTranslate]
  exact ⟨rfl, hacc, hr,
    C4_ignore_veto modelEnv { ignore := some (.str "a.a") } false (.str "*.a") (.str "a.a")
      (.str "a.a") false (.bool false) rfl hacc hr⟩

theorem strData_append (x y : String) : (x ++ y).data = x.data ++ y.data := rfl

theorem strExt {a b : String} (h : a.data = b.data) : a = b := by
  rw [← stringMk_data a, ← stringMk_data b, h]

theorem toPosixSlashes_append (a b : String) :
    toPosixSlashes (a ++ b) = toPosixSlashes a ++ toPosixSlashes b := by
  apply strExt
  simp [toPosixSlashes, strData_append]

/-- Claim C9: `join` pops the glob, POSIX-joins and slash-normalizes the
preceding segments, and POSIX-joins the glob onto the result, so
`join ["a","b","*.js"]` is `a/b/*.js`; `resolve` additionally makes the
base absolute against the process working directory, so
`resolve ["a","*.js"]` is an absolute POSIX path ending in `/*.js`
whatever separator convention the working directory used. -/
theorem C9_join_resolve (env : Env) (c : String) (hcwd : env.cwd = "/" ++ c) :
    join ["a", "b", "*.js"] = .ok "a/b/*.js" ∧
    resolve env ["a", "*.js"] = .ok ("/" ++ (toPosixSlashes c ++ "/a") ++ "/*.js") := by
  constructor
  · rfl
  · have h1 : (("/" : String) ++ c) ≠ "" := by
      intro hh
      have hd := congrArg String.data hh
      simp [strData_append] at hd
    have h2 : (("/" : String) ++ c) ≠ "." := by
      intro hh
      have hd := congrArg String.data hh
      simp [strData_append] at hd
    show Except.ok (posixJoin2 (toPosixSlashes (posixResolve env.cwd ["a"])) "*.js") = _
    rw [hcwd]
    have hres : posixResolve ("/" ++ c) ["a"] = ("/" ++ c) ++ "/" ++ "a" := by
      simp [posixResolve, posixJoin2, headIs, h1, h2]
    rw [hres]
    have hbase : toPosixSlashes ("/" ++ c ++ "/" ++ "a") = "/" ++ toPosixSlashes c ++ "/" ++ "a" := by
      simp [toPosixSlashes_append]
      rfl
    rw [hbase]
    have h3 : (("/" : String) ++ toPosixSlashes c ++ "/" ++ "a") ≠ "" := by
      intro hh
      have hd := congrArg String.data hh
      simp [strData_append] at hd
    have h4 : (("/" : String) ++ toPosixSlashes c ++ "/" ++ "a") ≠ "." := by
      intro hh
      have hd := congrArg String.data hh
      simp [strData_append] at hd
    simp only [posixJoin2, h3, h4, if_false]
    refine congrArg Except.ok (strExt ?_)
    simp [strData_append]

theorem hasSpecialChars_strip {s : String} (h : hasSpecialChars s = false) :
    hasSpecialChars (stripLeadDotSlash s) = false := by
  unfold stripLeadDotSlash
  split
  · simp only [hasSpecialChars, List.any_eq_false] at h ⊢
    intro c hc
    exact h c (List.mem_of_mem_drop hc)
  · exact h

theorem headIs_star_strip {s : String} (h : hasSpecialChars s = false) :
    headIs (stripLeadDotSlash s) '*' = false := by
  by_contra hh
  rw [Bool.not_eq_false, headIs] at hh
  have hmem : '*' ∈ (stripLeadDotSlash s).data := by
    cases hd : (stripLeadDotSlash s).data with
    | nil => simp [hd] at hh
    | cons a tl =>
      simp only [hd, List.head?_cons, Option.some.injEq] at hh
      have ha : a = '*' := by simpa using hh
      simp [hd, ha]
  have hmem2 : '*' ∈ s.data := by
    unfold stripLeadDotSlash at hmem
    split at hmem
    · exact List.mem_of_mem_drop hmem
    · exact hmem
  have := (List.any_eq_false.mp h) '*' hmem2
  simp [isGlobSpecial] at this

theorem append_x_ne (s : String) : s ++ "x" ≠ s := by
  intro hh
  have hd := congrArg (fun t => t.data.length) hh
  simp [strData_append] at hd

theorem append_x_ne_empty (s : String) : s ++ "x" ≠ "" := by
  intro hh
  have hd := congrArg (fun t => t.data.length) hh
  simp [strData_append] at hd

theorem strip_length_le (s : String) :
    (stripLeadDotSlash s).data.length ≤ s.data.length := by
  unfold stripLeadDotSlash
  split
  · simp
  · exact le_refl _

theorem append_x_ne_strip (s : String) : s ++ "x" ≠ stripLeadDotSlash s := by
  intro hh
  have hd : (s ++ "x").data.length = (stripLeadDotSlash s).data.length := by rw [hh]
  have hle := strip_length_le s
  simp only [strData_append, List.length_append] at hd
  have hx : ("x" : String).data.length = 1 := rfl
  rw [hx] at hd
  omega

theorem toPosixSlashes_id {s : String} (h : ∀ c ∈ s.data, c ≠ '\\') :
    toPosixSlashes s = s := by
  apply strExt
  simp only [toPosixSlashes]
  exact List.map_congr_left (fun c hc => by simp [h c hc]) |>.trans (List.map_id _)

theorem no_backslash_of_no_special {s : String} (h : hasSpecialChars s = false) :
    ∀ c ∈ s.data, c ≠ '\\' := by
  intro c hc he
  have := (List.any_eq_false.mp h) c hc
  subst he
  simp [isGlobSpecial] at this

theorem test_eq_glob (env : Env) (regex : CompiledRegex) (t : String) (posix : Bool)
    (ht : t ≠ "") :
    test env (.str t) regex {} t posix =
      .ok ⟨true, .bool true, if posix then toPosixSlashes t else t⟩ := by
  unfold test
  simp only [if_neg ht]
  cases posix <;> simp

theorem test_no_match (env : Env) (regex : CompiledRegex) (g t : String) (posix : Bool)
    (ht : t ≠ "") (h1 : t ≠ g)
    (h2 : (if posix then toPosixSlashes t else t) ≠ g)
    (h3 : regex.exec (if posix then toPosixSlashes t else t) = false) :
    test env (.str t) regex {} g posix =
      .ok ⟨false, .execRes false, if posix then toPosixSlashes t else t⟩ := by
  unfold test
  simp only [if_neg ht]
  cases posix <;> simp_all

/-- Claim C7: for a non-empty pattern with none of the glob
metacharacters, the assembler takes the purely literal fast path,
escaping only `.` and `/`; the executor tries exact literal equality
before any regex execution (so matching is independent of the compiled
regex when input equals pattern); and `isMatch (s, s)` holds while
`isMatch (s ++ "x", s)` does not.  The hypothesis on the fast-path table
covers patterns with a leading dot, whose table lookup must yield
nothing for the literal path to be reached (the modelled table provides
fragments only for `*` and `**`). -/
theorem C7_literal_fast_path (env : Env) (s : String)
    (hs : s ≠ "")
    (hns : hasSpecialChars s = false)
    (hfp : headIs (stripLeadDotSlash s) '.' = true →
      env.fastpathsFn (stripLeadDotSlash s) {} = none) :
    isMatch env (.str s) (.str s) {} = .ok (.bool true) ∧
    isMatch env (.str (s ++ "x")) (.str s) {} = .ok (.bool false) ∧
    makeReOutput env (.str s) {} = .ok (escapeLit (stripLeadDotSlash s)) ∧
    (∀ (r : CompiledRegex) (posix : Bool) (t : String), t ≠ "" →
      test env (.str t) r {} t posix =
        .ok ⟨true, .bool true, if posix then toPosixSlashes t else t⟩) := by
  have hstar := headIs_star_strip hns
  have hspec := hasSpecialChars_strip hns
  have hfrag : fragmentOf env {} (stripLeadDotSlash s) =
      (litFrag (stripLeadDotSlash s), ⟨false, true, none⟩) := by
    unfold fragmentOf
    by_cases hdot : headIs (stripLeadDotSlash s) '.' = true
    · simp [hdot, hfp hdot, hspec]
    · have hdot2 : headIs (stripLeadDotSlash s) '.' = false := by simpa using hdot
      simp [hdot2, hstar, hspec]
  have hpico : ∀ (r0 : CompiledRegex), makeReRegex env (.str s) {} true = .ok r0 →
      ∀ input ro, runMatcher env (.str s) {} false input ro =
        matcherFun env s {} (env.isWindows {}) { r0 with state := none } r0.state
          (fun _ _ => .ok (.bool false)) input ro := by
    intro r0 hr0 input ro
    unfold runMatcher picomatch
    simp [hs, hr0]
  have hmk : makeReRegex env (.str s) {} true =
      .ok (if env.regexOk (assembledSource {} false (litFrag (stripLeadDotSlash s)).src) "" then
        { source := assembledSource {} false (litFrag (stripLeadDotSlash s)).src,
          flags := "", exec := (litFrag (stripLeadDotSlash s)).sem,
          state := some ⟨false, true, none⟩ }
      else { fallbackRegex with state := some ⟨false, true, none⟩ }) := by
    unfold makeReRegex toRegex
    simp only [if_neg hs, hfrag]
    by_cases hre : env.regexOk (assembledSource {} false (litFrag (stripLeadDotSlash s)).src) "" = true
    · simp [flagsOf, hre, assembledExec]
    · have hre2 : env.regexOk (assembledSource {} false (litFrag (stripLeadDotSlash s)).src) "" = false := by
        simpa using hre
      simp [flagsOf, hre2, assembledExec]
  have hposfix : (if env.isWindows {} = true then toPosixSlashes (s ++ "x") else s ++ "x") = s ++ "x" := by
    cases hw : env.isWindows {}
    · simp
    · simp only [if_true]
      refine toPosixSlashes_id ?_
      intro c hc
      rw [strData_append] at hc
      rcases List.mem_append.mp hc with hc1 | hc2
      · exact no_backslash_of_no_special hns c hc1
      · have : c = 'x' := by simpa using hc2
        subst this
        decide
  refine ⟨?_, ?_, ?_, ?_⟩
  · unfold isMatch
    rw [hpico _ hmk]
    unfold matcherFun
    rw [test_eq_glob env _ s (env.isWindows {}) hs]
    simp [truthyR]
  · unfold isMatch
    rw [hpico _ hmk]
    unfold matcherFun
    rw [test_no_match env _ s (s ++ "x") (env.isWindows {}) (append_x_ne_empty s) (append_x_ne s)
      (by rw [hposfix]; exact append_x_ne s) ?hx3]
    case hx3 =>
      rw [hposfix]
      by_cases hre : env.regexOk (assembledSource {} false (litFrag (stripLeadDotSlash s)).src) "" = true
      · simp only [if_pos hre]
        simp [litFrag, append_x_ne_strip s]
      · simp only [if_neg hre]
        simp [fallbackRegex, append_x_ne_empty s]
    simp
  · unfold makeReOutput
    simp [hs, hfrag, litFrag]
  · intro r posix t ht
    exact test_eq_glob env r t posix ht

theorem test_no_match_gen (env : Env) (regex : CompiledRegex) (opts : Options) (g t : String)
    (posix : Bool)
    (ht : t ≠ "") (hfo : opts.format = none) (hmb : opts.matchBase = false)
    (hbn : opts.basename = false)
    (h1 : t ≠ g)
    (h2 : (if posix then toPosixSlashes t else t) ≠ g)
    (h3 : regex.exec (if posix then toPosixSlashes t else t) = false) :
    test env (.str t) regex opts g posix =
      .ok ⟨false, .execRes false, if posix then toPosixSlashes t else t⟩ := by
  unfold test
  simp only [if_neg ht, hfo, hmb, hbn]
  cases posix <;> simp_all

/-- Claim C2 (amended): when the assembled source is not accepted by the
host regex constructor, debug mode propagates the failure, and otherwise
no exception reaches the caller and the match-nothing fallback `/$^/` is
substituted — but the resulting matcher still reports `true` for the one
input equal to the pattern string itself (the executor's literal-equality
fast path runs before the regex); every other input yields `false`. -/
theorem C2_compile_failure_amended (env : Env) (opts : Options) (s : String) (rs : Bool)
    (hs : s ≠ "")
    (hbad : env.regexOk
      (assembledSource opts (fragmentOf env opts (stripLeadDotSlash s)).2.negated
        (fragmentOf env opts (stripLeadDotSlash s)).1.src) (flagsOf opts) = false) :
    (opts.debug = false →
      makeReRegex env (.str s) opts rs =
        .ok (if rs then { fallbackRegex with state := some (fragmentOf env opts (stripLeadDotSlash s)).2 }
             else fallbackRegex)) ∧
    (∀ t : String, fallbackRegex.exec t = true ↔ t = "") ∧
    (opts.debug = true → makeReRegex env (.str s) opts rs = .error .regexCtor ∧
      picomatch env (.str s) opts rs = .error .regexCtor) ∧
    (opts.debug = false → opts.ignore = none → opts.format = none → env.isWindows opts = false →
      opts.matchBase = false → opts.basename = false →
      (∃ m, picomatch env (.str s) opts rs = .ok m) ∧
      ∀ t : String, t ≠ s → runMatcher env (.str s) opts rs (.str t) false = .ok (.bool false)) := by
  have hmk : ∀ rs2 : Bool, opts.debug = false → makeReRegex env (.str s) opts rs2 =
      .ok (if rs2 then { fallbackRegex with state := some (fragmentOf env opts (stripLeadDotSlash s)).2 }
           else fallbackRegex) := by
    intro rs2 hdbg
    unfold makeReRegex toRegex
    simp [hs, hbad, hdbg]
  refine ⟨hmk rs, ?_, ?_, ?_⟩
  · intro t
    simp [fallbackRegex]
  · intro hdbg
    have hmk2 : ∀ rs2 : Bool, makeReRegex env (.str s) opts rs2 = .error .regexCtor := by
      intro rs2
      unfold makeReRegex toRegex
      simp [hs, hbad, hdbg]
    refine ⟨hmk2 rs, ?_⟩
    unfold picomatch
    simp [hs, hmk2 true]
  · intro hdbg hig hfo hwin hmb hbn
    obtain ⟨oig, oom, ooi, oor, ofmt, ocap, omb, obn, onc, ofl, oct, oss, ofp, odb, ocw⟩ := opts
    replace hig : oig = none := hig
    replace hdbg : odb = false := hdbg
    replace hfo : ofmt = none := hfo
    replace hmb : omb = false := hmb
    replace hbn : obn = false := hbn
    subst hig hdbg hfo hmb hbn
    have hrun : ∀ input ro, runMatcher env (.str s)
        ⟨none, oom, ooi, oor, none, ocap, false, false, onc, ofl, oct, oss, ofp, false, ocw⟩ rs input ro =
        matcherFun env s ⟨none, oom, ooi, oor, none, ocap, false, false, onc, ofl, oct, oss, ofp, false, ocw⟩
          (env.isWindows ⟨none, oom, ooi, oor, none, ocap, false, false, onc, ofl, oct, oss, ofp, false, ocw⟩)
          { fallbackRegex with state := none }
          (some (fragmentOf env ⟨none, oom, ooi, oor, none, ocap, false, false, onc, ofl, oct, oss, ofp, false, ocw⟩ (stripLeadDotSlash s)).2)
          (fun _ _ => .ok (.bool false)) input ro := by
      intro input ro
      unfold runMatcher picomatch
      simp [if_neg hs, hmk true rfl]
    constructor
    · cases hp : picomatch env (.str s)
        ⟨none, oom, ooi, oor, none, ocap, false, false, onc, ofl, oct, oss, ofp, false, ocw⟩ rs with
      | error e =>
        have h0 := hrun (.str "") false
        unfold runMatcher at h0
        rw [hp] at h0
        unfold matcherFun test at h0
        simp at h0
      | ok m => exact ⟨m, rfl⟩
    · intro t hts
      rw [hrun]
      by_cases ht : t = ""
      · subst ht
        unfold matcherFun test
        simp
      · unfold matcherFun
        rw [test_no_match_gen env _ _ s t
          (env.isWindows ⟨none, oom, ooi, oor, none, ocap, false, false, onc, ofl, oct, oss, ofp, false, ocw⟩)
          ht rfl rfl rfl hts
          (by rw [hwin]; simpa using hts) (by rw [hwin]; simpa [fallbackRegex] using ht)]
        simp

/-- An environment in which the host rejects the assembled source of the
pattern `(` (the modelled compiler emits the unbalanced fragment `(`)
and accepts every other source. -/
def envBadRegex : Env :=
  { modelEnv with regexOk := fun src _ => src ≠ "^(?:()$" }

/-- Claim C2 counterexample: the assembled source of pattern `(` is
rejected by the host, debug is off, so the fallback is substituted — yet
the matcher returns `true` on the input equal to the pattern, via the
executor's literal-equality fast path; the substituted matcher does not
return `false` for every input. -/
theorem C2_fallback_literal_counterexample :
    envBadRegex.regexOk
      (assembledSource {} (fragmentOf envBadRegex {} (stripLeadDotSlash "(")).2.negated
        (fragmentOf envBadRegex {} (stripLeadDotSlash "(")).1.src) (flagsOf {}) = false ∧
    (({} : Options)).debug = false ∧
    isMatch envBadRegex (.str "(") (.str "(") {} = .ok (.bool true) := by
  refine ⟨by decide, rfl, ?_⟩
  simp [isMatch, runMatcher, picomatch, makeReRegex, fragmentOf, envBadRegex, modelEnv,
    modelParse, modelFastpaths, matcherFun, test, stripLeadDotSlash, hasSpecialChars,
    headIs, isGlobSpecial, assembledSource, assembledExec, toRegex, flagsOf, truthyR,
    miniGlobMatch, starSuffixes, litFrag, escapeLit, miniTranslate, fallbackRegex]

/-- Claim C2 witness: the amended behaviour at the concrete pattern `(`
under the bad-source environment — fallback substituted and silent with
debug off, matcher false on an input different from the pattern, error
propagated with debug on. -/
theorem C2_compile_failure_witness :
    (("(" : String) ≠ "" ∧
     envBadRegex.regexOk
       (assembledSource {} (fragmentOf envBadRegex {} (stripLeadDotSlash "(")).2.negated
         (fragmentOf envBadRegex {} (stripLeadDotSlash "(")).1.src) (flagsOf {}) = false) ∧
    makeReRegex envBadRegex (.str "(") {} false = .ok fallbackRegex ∧
    runMatcher envBadRegex (.str "(") {} false (.str "x") false = .ok (.bool false) ∧
    makeReRegex envBadRegex (.str "(") { debug := true } false = .error .regexCtor := by
  have h1 := C2_compile_failure_amended envBadRegex {} "(" false (by decide) (by decide)
  have h2 := C2_compile_failure_amended envBadRegex { debug := true } "(" false (by decide) (by decide)
  refine ⟨⟨by decide, by decide⟩, ?_, ?_, ?_⟩
  · simpa using h1.1 rfl
  · exact (h1.2.2.2 rfl rfl rfl rfl rfl rfl).2 "x" (by decide)
  · exact (h2.2.2.1 rfl).1

/-- Projection of an assembler result: the truthiness of `exec` on an
input, or `none` if assembly failed. -/
def regexExecOf (x : Except JsError CompiledRegex) (t : String) : Option Bool :=
  match x with
  | .ok r => some (r.exec t)
  | .error _ => none

/-- Claim C1 (amended): for a pattern whose compilation reports
`negated`, the assembled source is the wrapped base expression
transformed once into the complement shape, which the positional regex
model interprets; the resulting regex matches a string exactly when the
string is not in the inner full-string language **and contains no line
terminator** (so the complement is over line-terminator-free strings
only), and it matches the empty string provided the inner expression
does not match the empty string. -/
theorem C1_negated_regex_amended (env : Env) (opts : Options) (s : String)
    (hs : s ≠ "")
    (hneg : (fragmentOf env opts (stripLeadDotSlash s)).2.negated = true)
    (hcont : opts.contains = false)
    (hok : env.regexOk
      (assembledSource opts true (fragmentOf env opts (stripLeadDotSlash s)).1.src)
      (flagsOf opts) = true) :
    makeReRegex env (.str s) opts false =
      .ok { source := assembledSource opts true (fragmentOf env opts (stripLeadDotSlash s)).1.src,
            flags := flagsOf opts,
            exec := assembledExec opts.contains true (fragmentOf env opts (stripLeadDotSlash s)).1.sem,
            state := none } ∧
    assembledSource opts true (fragmentOf env opts (stripLeadDotSlash s)).1.src =
      "^(?!^(?:" ++ (fragmentOf env opts (stripLeadDotSlash s)).1.src ++ ")$).*$" ∧
    sourceOf (negAst (.frag (fragmentOf env opts (stripLeadDotSlash s)).1.src
        (fragmentOf env opts (stripLeadDotSlash s)).1.sem)) =
      "^(?!^(?:" ++ (fragmentOf env opts (stripLeadDotSlash s)).1.src ++ ")$).*$" ∧
    (∀ t, assembledExec opts.contains true (fragmentOf env opts (stripLeadDotSlash s)).1.sem t = true ↔
       ExecMatch (negAst (.frag (fragmentOf env opts (stripLeadDotSlash s)).1.src
         (fragmentOf env opts (stripLeadDotSlash s)).1.sem)) t) ∧
    (∀ t, assembledExec opts.contains true (fragmentOf env opts (stripLeadDotSlash s)).1.sem t = true ↔
       ((fragmentOf env opts (stripLeadDotSlash s)).1.sem t = false ∧ noLT t = true)) ∧
    ((fragmentOf env opts (stripLeadDotSlash s)).1.sem "" = false →
       assembledExec opts.contains true (fragmentOf env opts (stripLeadDotSlash s)).1.sem "" = true) := by
  have hshape : assembledSource opts true (fragmentOf env opts (stripLeadDotSlash s)).1.src =
      "^(?!^(?:" ++ (fragmentOf env opts (stripLeadDotSlash s)).1.src ++ ")$).*$" := by
    unfold assembledSource
    rw [hcont]
    apply strExt
    simp [strData_append]
  have hsem : ∀ t, assembledExec opts.contains true (fragmentOf env opts (stripLeadDotSlash s)).1.sem t = true ↔
      ((fragmentOf env opts (stripLeadDotSlash s)).1.sem t = false ∧ noLT t = true) := by
    intro t
    rw [hcont]
    simp [assembledExec]
  refine ⟨?_, hshape, ?_, ?_, hsem, ?_⟩
  · unfold makeReRegex toRegex
    simp [hs, hneg, hok]
  · apply strExt
    simp [sourceOf, negAst, wrapAst, strData_append]
  · intro t
    rw [hcont]
    exact assembledExec_neg_models (fragmentOf env opts (stripLeadDotSlash s)).1 t
  · intro h0
    rw [(hsem "")]
    exact ⟨h0, rfl⟩

/-- Claim C1 counterexample: the pattern `!a` (negated, inner language
exactly `a`) yields a regex that fails to match `b\nc` even though that
string is not in the inner language — the negated regex is not the full
complement, because `.*$` cannot span a line terminator. -/
theorem C1_negated_newline_counterexample :
    (fragmentOf modelEnv {} (stripLeadDotSlash "!a")).2.negated = true ∧
    (fragmentOf modelEnv {} (stripLeadDotSlash "!a")).1.sem "b\nc" = false ∧
    regexExecOf (makeReRegex modelEnv (.str "!a") {} false) "b\nc" = some false := by
  refine ⟨by decide, by decide, by decide⟩

/-- Claim C1 witness: the amended theorem at the concrete negated
pattern `!a` under the modelled compiler environment. -/
theorem C1_negated_regex_witness :
    (("!a" : String) ≠ "" ∧
     (fragmentOf modelEnv {} (stripLeadDotSlash "!a")).2.negated = true ∧
     modelEnv.regexOk
       (assembledSource {} true (fragmentOf modelEnv {} (stripLeadDotSlash "!a")).1.src)
       (flagsOf {}) = true) ∧
    ((∀ t, assembledExec ({} : Options).contains true
        (fragmentOf modelEnv {} (stripLeadDotSlash "!a")).1.sem t = true ↔
        ((fragmentOf modelEnv {} (stripLeadDotSlash "!a")).1.sem t = false ∧ noLT t = true)) ∧
     ((fragmentOf modelEnv {} (stripLeadDotSlash "!a")).1.sem "" = false →
        assembledExec ({} : Options).contains true
          (fragmentOf modelEnv {} (stripLeadDotSlash "!a")).1.sem "" = true)) := by
  have h := C1_negated_regex_amended modelEnv {} "!a" (by decide) (by decide) rfl (by decide)
  exact ⟨⟨by decide, by decide, by decide⟩, h.2.2.2.2.1, h.2.2.2.2.2⟩

/-- Claim C9 witness: the resolve clause at the concrete absolute
working directory `/cwd` of the model environment. -/
theorem C9_join_resolve_witness :
    modelEnv.cwd = "/" ++ "cwd" ∧
    (join ["a", "b", "*.js"] = .ok "a/b/*.js" ∧
     resolve modelEnv ["a", "*.js"] = .ok ("/" ++ (toPosixSlashes "cwd" ++ "/a") ++ "/*.js")) :=
  ⟨rfl, C9_join_resolve modelEnv "cwd" rfl⟩

/-- Claim C7 witness: the literal fast path at the concrete pattern
`ab` under the modelled environment. -/
theorem C7_literal_fast_path_witness :
    (("ab" : String) ≠ "" ∧ hasSpecialChars "ab" = false) ∧
    (isMatch modelEnv (.str "ab") (.str "ab") {} = .ok (.bool true) ∧
     isMatch modelEnv (.str ("ab" ++ "x")) (.str "ab") {} = .ok (.bool false) ∧
     makeReOutput modelEnv (.str "ab") {} = .ok (escapeLit (stripLeadDotSlash "ab")) ∧
     (∀ (r : CompiledRegex) (posix : Bool) (t : String), t ≠ "" →
       test modelEnv (.str t) r {} t posix =
         .ok ⟨true, .bool true, if posix then toPosixSlashes t else t⟩)) :=
  ⟨⟨by decide, by decide⟩,
   C7_literal_fast_path modelEnv "ab" (by decide) (by decide)
     (fun h => absurd h (by decide))⟩
